import Mathlib

/-!
Verification development for `.github/scripts/clang_tidy_html_report.py`.

The script parses clang-tidy stdout logs into diagnostic records, applies a
suppression policy (excluded paths / path prefixes / checks / message
substrings / header-only checks), deduplicates records, sorts them for
display and emits post-filter counts plus an exit status.

The shallow embedding below translates the script as follows.

* `parseLine` embeds matching `ROW_RE` against a stripped line.  Input lines
  are the result of `splitlines()` in the script, so they never contain a
  newline character; whitespace classes are modelled over their ASCII part.
* Filesystem access (`Path.resolve()`) is modelled by an oracle
  `Fs : String → Option String`; `none` models `resolve` raising, `some q`
  models resolution to the absolute normalized path `q`.
  `relativeTo` models `PurePath.relative_to` on resolved paths and
  `normpath` models `os.path.normpath` (POSIX rules).
* The module-level configuration sets (`EXCLUDED_FILES`,
  `EXCLUDED_PATH_PREFIXES`, `SUPPRESS_CHECKS`, `SUPPRESS_MSG_SUBSTR`,
  `SUPPRESS_CHECKS_IN_HEADERS`, `SUPPRESS_SEVERITY_IN_HEADERS`) are gathered
  into a `Policy` value threaded through the pipeline; `defaultPolicy` is
  the hard-coded configuration with empty environment overrides.
* `parse_logs`, the note filter, the `_suppressed` filter, the display sort
  and the counts/exit logic of `main` are embedded as `parse_logs`,
  `keptItems`, `finalItems`, `countsOf`, `exitCodeOf` and `runMain`.
  Python exceptions never escape `normalize_path` (`try`/`except` around the
  whole body), so its embedding is a total function.
-/

namespace ClangTidy

/-- Severity of a diagnostic: the regex alternation `warning|error|note`. -/
inductive Sev
  | error
  | warning
  | note
deriving DecidableEq, Repr

/-- ASCII part of the Python regex class `\s` (and of `str.strip`). -/
def pySpace (c : Char) : Bool :=
  c == ' ' || c == '\t' || c == '\n' || c == '\r' || c == '\x0b' || c == '\x0c'

/-- `line.strip()` as a character list. -/
def pyStrip (s : String) : List Char :=
  ((s.toList.dropWhile pySpace).reverse.dropWhile pySpace).reverse

/-- Character-list version of Python `str.startswith`. -/
def isPrefL : List Char → List Char → Bool
  | [], _ => true
  | _ :: _, [] => false
  | a :: as, b :: bs => a == b && isPrefL as bs

/-- Python `s.startswith(pre)`. -/
def strStartsWith (s pre : String) : Bool := isPrefL pre.toList s.toList

/-- Python `s.endswith(suf)`. -/
def strEndsWith (s suf : String) : Bool := isPrefL suf.toList.reverse s.toList.reverse

/-- Character-list version of Python `sub in msg` (substring containment). -/
def isSubL (n : List Char) : List Char → Bool
  | [] => n.isEmpty
  | c :: t => isPrefL n (c :: t) || isSubL n t

/-- Python `sub in msg` on strings. -/
def subInStr (sub msg : String) : Bool := isSubL sub.toList msg.toList

/-- Lexicographic code-point comparison of character lists. -/
def ltL : List Char → List Char → Bool
  | [], [] => false
  | [], _ :: _ => true
  | _ :: _, [] => false
  | a :: as, b :: bs => if a < b then true else if b < a then false else ltL as bs

/-- Python string `<` (lexicographic by code point). -/
def strLt (x y : String) : Bool := ltL x.toList y.toList

/-- Python `str.split(sep)` for a single-character separator (keeps empty
pieces, as Python does). -/
def splitChar (sep : Char) : List Char → List (List Char)
  | [] => [[]]
  | c :: t =>
    if c == sep then [] :: splitChar sep t
    else
      match splitChar sep t with
      | [] => [[c]]
      | h :: r => (c :: h) :: r

/-- `splitChar` on strings. -/
def splitStr (sep : Char) (s : String) : List String :=
  (splitChar sep s.toList).map (fun l => ⟨l⟩)

/-- Match `(?P<file>[^:\n]+):` — the run up to the first colon, which must be
nonempty, newline-free and followed by a colon. -/
def splitColon (cs : List Char) : Option (List Char × List Char) :=
  let f := cs.takeWhile (fun c => !(c == ':') && !(c == '\n'))
  match cs.drop f.length with
  | ':' :: r => if f.isEmpty then none else some (f, r)
  | _ => none

/-- Numeric value of a decimal digit run (`int(...)` on the captured group). -/
def digitsVal (ds : List Char) : Nat :=
  ds.foldl (fun n c => 10 * n + (c.toNat - '0'.toNat)) 0

/-- Match `(?P<line>\d+):` — a maximal nonempty digit run followed by a colon. -/
def splitNum (cs : List Char) : Option (Nat × List Char) :=
  let ds := cs.takeWhile Char.isDigit
  match cs.drop ds.length with
  | ':' :: r => if ds.isEmpty then none else some (digitsVal ds, r)
  | _ => none

/-- Match `\s+` — a maximal nonempty whitespace run (the following regex atom
starts with a non-whitespace character in `ROW_RE`). -/
def splitWs1 (cs : List Char) : Option (List Char) :=
  let ws := cs.takeWhile pySpace
  if ws.isEmpty then none else some (cs.drop ws.length)

/-- Match a literal character sequence. -/
def litP : List Char → List Char → Option (List Char)
  | [], cs => some cs
  | _ :: _, [] => none
  | l :: ls, c :: cs => if c == l then litP ls cs else none

/-- Match `(?P<sev>warning|error|note):`.  The three literals are mutually
non-prefixing, so at most one alternative can match at a given position. -/
def splitSev (cs : List Char) : Option (Sev × List Char) :=
  match litP "warning:".toList cs with
  | some r => some (Sev.warning, r)
  | none =>
    match litP "error:".toList cs with
    | some r => some (Sev.error, r)
    | none =>
      match litP "note:".toList cs with
      | some r => some (Sev.note, r)
      | none => none

/-- Match `(?P<check>[^\]]+)\]\s*$` after an opening bracket: a nonempty
bracket-free run whose closing bracket is followed only by whitespace. -/
def checkInner (cs : List Char) : Option (List Char) :=
  let inner := cs.takeWhile (fun c => !(c == ']'))
  match cs.drop inner.length with
  | ']' :: tail =>
    if inner.isEmpty then none
    else if tail.all pySpace then some inner else none
  | _ => none

/-- Match `(?P<msg>.*?)(?:\s\[(?P<check>[^\]]+)\])?\s*$`: the lazy message
group stops at the first position where the optional bracketed check (tried
first) or the trailing-whitespace tail matches.  Returns `(msg, check)`,
where `check` is empty when the optional group is absent. -/
def msgScan : List Char → List Char → List Char × List Char
  | acc, [] => (acc.reverse, [])
  | acc, c :: rest =>
    if pySpace c then
      match rest with
      | '[' :: afterBr =>
        (match checkInner afterBr with
         | some inner => (acc.reverse, inner)
         | none => if rest.all pySpace then (acc.reverse, []) else msgScan (c :: acc) rest)
      | _ => if rest.all pySpace then (acc.reverse, []) else msgScan (c :: acc) rest
    else msgScan (c :: acc) rest

/-- One matched log line, before path normalization: the named groups of
`ROW_RE`, with `check` already defaulted to the empty string
(`d.get('check') or ''`). -/
structure RawDiag where
  fileRaw : String
  line : Nat
  col : Nat
  sev : Sev
  msg : String
  check : String
deriving DecidableEq, Repr

/-- `ROW_RE.match(line.strip())` followed by extraction of the named groups. -/
def parseLine (raw : String) : Option RawDiag :=
  match splitColon (pyStrip raw) with
  | none => none
  | some (f, r1) =>
    match splitNum r1 with
    | none => none
    | some (ln, r2) =>
      match splitNum r2 with
      | none => none
      | some (cl, r3) =>
        match splitWs1 r3 with
        | none => none
        | some r4 =>
          match splitSev r4 with
          | none => none
          | some (sv, r5) =>
            match splitWs1 r5 with
            | none => none
            | some r6 =>
              let mc := msgScan [] r6
              some ⟨⟨f⟩, ln, cl, sv, ⟨mc.1⟩, ⟨mc.2⟩⟩

/-- Number of leading slashes kept by `posixpath.normpath` (POSIX allows two
leading slashes; three or more collapse to one). -/
def initSlashCount (p : String) : Nat :=
  if strStartsWith p "/" then
    if strStartsWith p "//" && !(strStartsWith p "///") then 2 else 1
  else 0

/-- One step of the component loop of `posixpath.normpath`. -/
def normStep (k : Nat) (acc : List String) (comp : String) : List String :=
  if comp == "" || comp == "." then acc
  else if comp != ".." || (k == 0 && acc.isEmpty) || (!acc.isEmpty && acc.getLast? == some "..") then
    acc ++ [comp]
  else if !acc.isEmpty then acc.dropLast
  else acc

/-- The `new_comps` list computed by `posixpath.normpath`. -/
def normSegments (p : String) : List String :=
  (splitStr '/' p).foldl (normStep (initSlashCount p)) []

/-- `os.path.normpath` on POSIX: purely lexical normalization collapsing
`.` segments, `..` segments and redundant separators. -/
def normpath (p : String) : String :=
  if p = "" then "."
  else
    let path := String.join (List.replicate (initSlashCount p) "/") ++
      String.intercalate "/" (normSegments p)
    if path = "" then "." else path

/-- `PurePath.relative_to` on resolved (absolute, already normalized) paths:
succeeds when the root's segments are a proper segment-wise starting run of
the path's segments; `none` models the `ValueError` raised otherwise. -/
def relativeTo (q root : String) : Option String :=
  let qs := splitStr '/' q
  let rs := splitStr '/' root
  if rs.isPrefixOf qs then
    match qs.drop rs.length with
    | [] => some "."
    | rest => some (String.intercalate "/" rest)
  else none

/-- Filesystem resolution oracle: `Path(p).resolve()`.  `none` models the
call raising an exception; `some q` models resolution to `q`. -/
def Fs : Type := String → Option String

/-- `normalize_path`: resolve and relativize against the repository root,
falling back to `os.path.normpath` when either step fails.  The Python
`try`/`except Exception` wraps the whole body, so this function is total:
no exception escapes. -/
def normalize_path (fs : Fs) (root : String) (p : String) : String :=
  match fs p with
  | some q =>
    match relativeTo q root with
    | some r => r
    | none => normpath p
  | none => normpath p

/-- The process-wide suppression configuration: the module-level sets of the
script, gathered into one immutable value (built-in defaults plus any
environment overrides already merged in). -/
structure Policy where
  excludedFiles : List String
  excludedPathPrefs : List String
  suppressChecks : List String
  suppressMsgSubstr : List String
  suppressChecksInHeaders : List String
  suppressSevInHeaders : List String

/-- `is_header`: extension test on the raw path string. -/
def is_header (path : String) : Bool :=
  strEndsWith path ".h" || strEndsWith path ".hpp" || strEndsWith path ".hh" || strEndsWith path ".hxx"

/-- `is_excluded_path`: exact membership in `EXCLUDED_FILES` or any match in
`EXCLUDED_PATH_PREFIXES`. -/
def is_excluded_path (pol : Policy) (path : String) : Bool :=
  pol.excludedFiles.contains path || pol.excludedPathPrefs.any (fun p => strStartsWith path p)

/-- One entry dict appended by `parse_logs`. -/
structure Entry where
  file : String
  line : Nat
  col : Nat
  sev : Sev
  msg : String
  check : String
deriving DecidableEq, Repr

/-- The deduplication key of `parse_logs`:
`(file, int(line), int(col), check or '', msg)`. -/
abbrev Key := String × Nat × Nat × String × String

/-- The key of an entry (same tuple as the `key` local in `parse_logs`). -/
def entryKey (e : Entry) : Key := (e.file, e.line, e.col, e.check, e.msg)

/-- The body of the inner loop of `parse_logs`, acting on the
`(entries, seen)` state. -/
def processLine (pol : Policy) (fs : Fs) (root : String)
    (st : List Entry × List Key) (line : String) : List Entry × List Key :=
  match parseLine line with
  | none => st
  | some d =>
    let file := normalize_path fs root d.fileRaw
    if is_excluded_path pol file then st
    else if is_header file && pol.suppressChecksInHeaders.contains d.check then st
    else if is_header file && (d.sev == Sev.warning && pol.suppressChecksInHeaders.contains d.check) then st
    else
      let key : Key := (file, d.line, d.col, d.check, d.msg)
      if st.2.contains key then st
      else (st.1 ++ [{ file := file, line := d.line, col := d.col,
                       sev := d.sev, msg := d.msg, check := d.check }], key :: st.2)

/-- `parse_logs`: fold the line loop over every log file, starting from an
empty entry list and an empty `seen` set.  A log file models the
`splitlines()` of one readable input file (unreadable files are skipped by
the script and hence simply absent from the input list). -/
def parse_logs (pol : Policy) (fs : Fs) (root : String) (logs : List (List String)) : List Entry :=
  (logs.foldl (fun st text => text.foldl (processLine pol fs root) st) ([], [])).1

/-- The `_suppressed` predicate of `main`: check-name match in
`SUPPRESS_CHECKS`, or any nonempty substring match in `SUPPRESS_MSG_SUBSTR`
(`if sub and sub in msg`). -/
def suppressedEntry (pol : Policy) (it : Entry) : Bool :=
  pol.suppressChecks.contains it.check ||
    pol.suppressMsgSubstr.any (fun sub => !sub.isEmpty && subInStr sub it.msg)

/-- The record list of `main` after the note filter and the `_suppressed`
filter, before the display sort. -/
def keptItems (pol : Policy) (fs : Fs) (root : String) (logs : List (List String)) : List Entry :=
  ((parse_logs pol fs root logs).filter (fun it => it.sev != Sev.note)).filter
    (fun it => !suppressedEntry pol it)

/-- Numeric encoding of the first two components of the Python sort key
`(x['sev'] != 'error', x['sev'] != 'warning')`: lexicographic order on the
boolean pair equals numeric order on `2*b1 + b2`. -/
def sevRankE (s : Sev) : Nat :=
  2 * (if s != Sev.error then 1 else 0) + (if s != Sev.warning then 1 else 0)

/-- Python tuple comparison of the sort keys
`(sev != 'error', sev != 'warning', file, line, col, check)`:
lexicographic, strings compared by code points. -/
def pyLe (x y : Entry) : Bool :=
  if sevRankE x.sev < sevRankE y.sev then true
  else if sevRankE y.sev < sevRankE x.sev then false
  else if strLt x.file y.file then true
  else if strLt y.file x.file then false
  else if x.line < y.line then true
  else if y.line < x.line then false
  else if x.col < y.col then true
  else if y.col < x.col then false
  else if strLt x.check y.check then true
  else if strLt y.check x.check then false
  else true

/-- The displayed record list: `items.sort(key=...)` (a stable ascending
sort) applied to the kept records. -/
def finalItems (pol : Policy) (fs : Fs) (root : String) (logs : List (List String)) : List Entry :=
  (keptItems pol fs root logs).mergeSort pyLe

/-- The machine-readable summary written by `--counts`. -/
structure Counts where
  errors : Nat
  warnings : Nat
  total : Nat
deriving DecidableEq, Repr

/-- The `errors`/`warnings`/`total` values of the summary: severity counts
and length of the final record list. -/
def countsOf (pol : Policy) (fs : Fs) (root : String) (logs : List (List String)) : Counts :=
  { errors := (finalItems pol fs root logs).countP (fun it => it.sev == Sev.error),
    warnings := (finalItems pol fs root logs).countP (fun it => it.sev == Sev.warning),
    total := (finalItems pol fs root logs).length }

/-- The three recognized `--fail-on` policies (`choices=["none","errors","warnings"]`);
`never` models the string `"none"`. -/
inductive FailOn
  | never
  | errors
  | warnings
deriving DecidableEq, Repr

/-- Validation of the `--fail-on` argument performed by `argparse` before any
log file is read. -/
def parseFailOn (s : String) : Option FailOn :=
  if s = "none" then some FailOn.never
  else if s = "errors" then some FailOn.errors
  else if s = "warnings" then some FailOn.warnings
  else none

/-- The final `sys.exit(1)` logic of `main` on the post-filter counts. -/
def exitCodeOf (fo : FailOn) (c : Counts) : Nat :=
  if fo == FailOn.errors && decide (0 < c.errors) then 1
  else if fo == FailOn.warnings && (decide (0 < c.errors) || decide (0 < c.warnings)) then 1
  else 0

/-- The observable result of a successful run. -/
structure Output where
  items : List Entry
  counts : Counts
  exitCode : Nat
deriving DecidableEq, Repr

/-- `main`: argument validation, then the record pipeline, counts and exit
status.  An unrecognized `--fail-on` value is rejected by `argparse` before
`parse_logs` runs. -/
def runMain (pol : Policy) (fs : Fs) (root : String) (failArg : String)
    (logs : List (List String)) : Except String Output :=
  match parseFailOn failArg with
  | none => Except.error "invalid choice for --fail-on"
  | some fo =>
    let c := countsOf pol fs root logs
    Except.ok { items := finalItems pol fs root logs, counts := c, exitCode := exitCodeOf fo c }

/-- A parsed record with its path normalized, before any filtering: the data
flowing into the suppression tests of `parse_logs`. -/
def parsedEntry (fs : Fs) (root : String) (line : String) : Option Entry :=
  (parseLine line).map (fun d =>
    { file := normalize_path fs root d.fileRaw, line := d.line, col := d.col,
      sev := d.sev, msg := d.msg, check := d.check })

/-- All parsed records of all input lines, in input order. -/
def rawEntries (fs : Fs) (root : String) (logs : List (List String)) : List Entry :=
  logs.flatten.filterMap (parsedEntry fs root)

/-- The keep-decision taken inside the loop of `parse_logs` before the
duplicate test: not path-excluded and not header-suppressed. -/
def keepGuard (pol : Policy) (e : Entry) : Bool :=
  !is_excluded_path pol e.file &&
    !(is_header e.file && pol.suppressChecksInHeaders.contains e.check) &&
    !(is_header e.file && (e.sev == Sev.warning && pol.suppressChecksInHeaders.contains e.check))

/-- One line of `parse_logs` up to (but excluding) the duplicate test. -/
def keepOne (pol : Policy) (fs : Fs) (root : String) (line : String) : Option Entry :=
  match parsedEntry fs root line with
  | none => none
  | some e => if keepGuard pol e then some e else none

/-- All records surviving parsing and the pre-dedup filters, in input order. -/
def keepList (pol : Policy) (fs : Fs) (root : String) (lines : List String) : List Entry :=
  lines.filterMap (keepOne pol fs root)

/-- Standalone first-occurrence deduplication on `entryKey`, relative to an
initial set of already-seen keys. -/
def dedupFrom (seen : List Key) : List Entry → List Entry
  | [] => []
  | e :: t =>
    if seen.contains (entryKey e) then dedupFrom seen t
    else e :: dedupFrom (entryKey e :: seen) t

/-- Standalone first-occurrence deduplication on `entryKey`. -/
def dedup (l : List Entry) : List Entry := dedupFrom [] l

/-- The `seen` set produced by a run of the dedup loop. -/
def seenAfter (seen : List Key) : List Entry → List Key
  | [] => seen
  | e :: t =>
    if seen.contains (entryKey e) then seenAfter seen t
    else seenAfter (entryKey e :: seen) t

lemma processLine_eq (pol : Policy) (fs : Fs) (root : String)
    (st : List Entry × List Key) (line : String) :
    processLine pol fs root st line =
      match keepOne pol fs root line with
      | none => st
      | some e => if st.2.contains (entryKey e) then st else (st.1 ++ [e], entryKey e :: st.2) := by
  unfold processLine keepOne parsedEntry keepGuard
  cases h : parseLine line with
  | none => rfl
  | some d =>
    simp only [Option.map_some']
    by_cases h1 : is_excluded_path pol (normalize_path fs root d.fileRaw) = true
    · simp [h1, entryKey]
    · by_cases hH : is_header (normalize_path fs root d.fileRaw) = true
      · by_cases hC : d.check ∈ pol.suppressChecksInHeaders
        · simp [h1, hH, hC, entryKey]
        · by_cases hW : d.sev = Sev.warning <;> simp [h1, hH, hC, hW, entryKey]
      · simp [h1, hH, entryKey]

lemma keepList_cons (pol : Policy) (fs : Fs) (root : String) (l : String) (t : List String) :
    keepList pol fs root (l :: t) =
      match keepOne pol fs root l with
      | none => keepList pol fs root t
      | some e => e :: keepList pol fs root t := by
  cases h : keepOne pol fs root l <;> simp [keepList, List.filterMap_cons, h]

lemma dedupFrom_cons_mem {seen : List Key} {e : Entry}
    (h : seen.contains (entryKey e) = true) (t : List Entry) :
    dedupFrom seen (e :: t) = dedupFrom seen t := by
  rw [dedupFrom, if_pos h]

lemma dedupFrom_cons_not_mem {seen : List Key} {e : Entry}
    (h : ¬ seen.contains (entryKey e) = true) (t : List Entry) :
    dedupFrom seen (e :: t) = e :: dedupFrom (entryKey e :: seen) t := by
  rw [dedupFrom, if_neg h]

lemma seenAfter_cons_mem {seen : List Key} {e : Entry}
    (h : seen.contains (entryKey e) = true) (t : List Entry) :
    seenAfter seen (e :: t) = seenAfter seen t := by
  rw [seenAfter, if_pos h]

lemma seenAfter_cons_not_mem {seen : List Key} {e : Entry}
    (h : ¬ seen.contains (entryKey e) = true) (t : List Entry) :
    seenAfter seen (e :: t) = seenAfter (entryKey e :: seen) t := by
  rw [seenAfter, if_neg h]

lemma foldl_processLine (pol : Policy) (fs : Fs) (root : String) :
    ∀ (lines : List String) (es : List Entry) (ks : List Key),
      lines.foldl (processLine pol fs root) (es, ks) =
        (es ++ dedupFrom ks (keepList pol fs root lines),
          seenAfter ks (keepList pol fs root lines)) := by
  intro lines
  induction lines with
  | nil => intro es ks; simp [keepList, dedupFrom, seenAfter]
  | cons l t ih =>
    intro es ks
    rw [List.foldl_cons, processLine_eq, keepList_cons]
    cases h : keepOne pol fs root l with
    | none => exact ih es ks
    | some e =>
      dsimp only
      by_cases hk : ks.contains (entryKey e) = true
      · rw [if_pos hk, dedupFrom_cons_mem hk, seenAfter_cons_mem hk]
        exact ih es ks
      · rw [if_neg hk, dedupFrom_cons_not_mem hk, seenAfter_cons_not_mem hk, ih (es ++ [e]) (entryKey e :: ks)]
        simp

/-- The stateful dedup loop of `parse_logs` equals suppression-filtered
parsing followed by standalone first-occurrence deduplication. -/
lemma parse_logs_eq (pol : Policy) (fs : Fs) (root : String) (logs : List (List String)) :
    parse_logs pol fs root logs = dedup (keepList pol fs root logs.flatten) := by
  unfold parse_logs dedup
  rw [← List.foldl_flatten, foldl_processLine]
  simp

lemma dedupFrom_sublist (seen : List Key) (l : List Entry) : (dedupFrom seen l).Sublist l := by
  induction l generalizing seen with
  | nil => simp [dedupFrom]
  | cons e t ih =>
    rw [dedupFrom]
    split
    · exact (ih seen).cons e
    · exact (ih (entryKey e :: seen)).cons₂ e

lemma not_contains_of_not_mem {k : Key} {seen : List Key} (h : k ∉ seen) :
    ¬ seen.contains k = true := by
  simpa using h

lemma nodup_keys_dedupFrom (seen : List Key) (l : List Entry) :
    ((dedupFrom seen l).map entryKey).Nodup ∧
      ∀ e ∈ dedupFrom seen l, entryKey e ∉ seen := by
  induction l generalizing seen with
  | nil => simp [dedupFrom]
  | cons a t ih =>
    rw [dedupFrom]
    split
    · exact ih seen
    · rename_i hc
      have hc' : entryKey a ∉ seen := fun hmem => hc (by simpa using hmem)
      obtain ⟨hn, hni⟩ := ih (entryKey a :: seen)
      refine ⟨?_, ?_⟩
      · rw [List.map_cons, List.nodup_cons]
        refine ⟨?_, hn⟩
        intro hmem
        obtain ⟨e, he, hkey⟩ := List.mem_map.mp hmem
        have h2 := hni e he
        rw [hkey] at h2
        exact h2 (List.mem_cons_self _ _)
      · intro e he
        rcases List.mem_cons.mp he with rfl | he'
        · exact hc'
        · exact fun hmem => hni e he' (List.mem_cons_of_mem _ hmem)

lemma find?_dedupFrom (k : Key) :
    ∀ (l : List Entry) (seen : List Key), k ∉ seen →
      (dedupFrom seen l).find? (fun e => entryKey e == k) =
        l.find? (fun e => entryKey e == k) := by
  intro l
  induction l with
  | nil => intro seen _; simp [dedupFrom]
  | cons a t ih =>
    intro seen hs
    by_cases hak : entryKey a = k
    · have hnc : ¬ seen.contains (entryKey a) = true := by
        rw [hak]; exact not_contains_of_not_mem hs
      rw [dedupFrom_cons_not_mem hnc]
      simp [List.find?_cons, hak]
    · rw [dedupFrom]
      split
      · rw [ih seen hs]
        simp [List.find?_cons, hak]
      · have ih2 := ih (entryKey a :: seen) (by
          intro hmem
          rcases List.mem_cons.mp hmem with h | h
          · exact hak h.symm
          · exact hs h)
        simp [List.find?_cons, hak, ih2]

lemma mem_dedupFrom_of_count_one (e : Entry) :
    ∀ (l : List Entry) (seen : List Key), entryKey e ∉ seen →
      e ∈ l → (l.map entryKey).count (entryKey e) = 1 →
      e ∈ dedupFrom seen l := by
  intro l
  induction l with
  | nil => intro seen _ h; simp at h
  | cons a t ih =>
    intro seen hs hmem hcount
    rcases List.mem_cons.mp hmem with rfl | hmem'
    · rw [dedupFrom_cons_not_mem (not_contains_of_not_mem hs)]
      exact List.mem_cons_self _ _
    · by_cases hk : entryKey a = entryKey e
      · exfalso
        have h1 : (entryKey e) ∈ t.map entryKey := List.mem_map_of_mem entryKey hmem'
        have h2 : 0 < (t.map entryKey).count (entryKey e) := List.count_pos_iff.mpr h1
        rw [List.map_cons, List.count_cons] at hcount
        simp [hk] at hcount
        omega
      · have hcount' : (t.map entryKey).count (entryKey e) = 1 := by
          rw [List.map_cons, List.count_cons] at hcount
          simpa [hk] using hcount
        rw [dedupFrom]
        split
        · exact ih seen hs hmem' hcount'
        · refine List.mem_cons_of_mem a (ih (entryKey a :: seen) ?_ hmem' hcount')
          intro hmem2
          rcases List.mem_cons.mp hmem2 with h | h
          · exact hk h.symm
          · exact hs h

lemma dedupFrom_filter (P : Entry → Bool)
    (hP : ∀ a b : Entry, entryKey a = entryKey b → P a = P b) :
    ∀ (l : List Entry) (ks1 ks2 : List Key),
      (∀ e : Entry, P e = true → (entryKey e ∈ ks1 ↔ entryKey e ∈ ks2)) →
      dedupFrom ks1 (l.filter P) = (dedupFrom ks2 l).filter P := by
  intro l
  induction l with
  | nil => intro ks1 ks2 _; simp [dedupFrom]
  | cons a t ih =>
    intro ks1 ks2 hinv
    by_cases hPa : P a = true
    · rw [List.filter_cons_of_pos hPa]
      by_cases hc : entryKey a ∈ ks2
      · have hc1 : entryKey a ∈ ks1 := (hinv a hPa).mpr hc
        rw [dedupFrom_cons_mem (by simpa using hc1), dedupFrom_cons_mem (by simpa using hc)]
        exact ih ks1 ks2 hinv
      · have hc1 : entryKey a ∉ ks1 := fun h => hc ((hinv a hPa).mp h)
        rw [dedupFrom_cons_not_mem (not_contains_of_not_mem hc1),
          dedupFrom_cons_not_mem (not_contains_of_not_mem hc),
          List.filter_cons_of_pos hPa]
        refine congrArg (a :: ·) (ih (entryKey a :: ks1) (entryKey a :: ks2) ?_)
        intro e hPe
        simp only [List.mem_cons]
        exact or_congr Iff.rfl (hinv e hPe)
    · rw [List.filter_cons_of_neg (by simpa using hPa)]
      by_cases hc : entryKey a ∈ ks2
      · rw [dedupFrom_cons_mem (by simpa using hc)]
        exact ih ks1 ks2 hinv
      · rw [dedupFrom_cons_not_mem (not_contains_of_not_mem hc),
          List.filter_cons_of_neg (by simpa using hPa)]
        refine ih ks1 (entryKey a :: ks2) ?_
        intro e hPe
        have hne : entryKey e ≠ entryKey a := by
          intro h
          rw [hP e a h] at hPe
          exact hPa hPe
        simp only [List.mem_cons]
        rw [hinv e hPe]
        simp [hne]

/-- One additional entry in one exclusion set of the policy. -/
inductive PolAdd
  | exFile (s : String)
  | exPref (s : String)
  | exCheck (s : String)
  | exMsgSub (s : String)
  | exHeaderCheck (s : String)
  | exHeaderSev (s : String)

/-- Add the entry to the corresponding set of the policy. -/
def applyAdd : PolAdd → Policy → Policy
  | .exFile s, pol => { pol with excludedFiles := s :: pol.excludedFiles }
  | .exPref s, pol => { pol with excludedPathPrefs := s :: pol.excludedPathPrefs }
  | .exCheck s, pol => { pol with suppressChecks := s :: pol.suppressChecks }
  | .exMsgSub s, pol => { pol with suppressMsgSubstr := s :: pol.suppressMsgSubstr }
  | .exHeaderCheck s, pol => { pol with suppressChecksInHeaders := s :: pol.suppressChecksInHeaders }
  | .exHeaderSev s, pol => { pol with suppressSevInHeaders := s :: pol.suppressSevInHeaders }

/-- Whether a record matches the added exclusion entry, in the sense the
script tests it: exact path equality for excluded files, raw string prefix
for excluded directory entries, exact check name (globally, and restricted
to header paths for the header set), nonempty message substring.  The
header-severity set is never consulted by the script, so no record matches
an entry added to it. -/
def matchesAdd : PolAdd → Entry → Bool
  | .exFile s, e => e.file == s
  | .exPref s, e => strStartsWith e.file s
  | .exCheck s, e => e.check == s
  | .exMsgSub s, e => !s.isEmpty && subInStr s e.msg
  | .exHeaderCheck s, e => is_header e.file && e.check == s
  | .exHeaderSev _, _ => false

/-- The part of `matchesAdd` tested inside `parse_logs`, before dedup. -/
def preMatches : PolAdd → Entry → Bool
  | .exFile s, e => e.file == s
  | .exPref s, e => strStartsWith e.file s
  | .exHeaderCheck s, e => is_header e.file && e.check == s
  | _, _ => false

/-- The part of `matchesAdd` tested by `_suppressed` in `main`, after dedup. -/
def postMatches : PolAdd → Entry → Bool
  | .exCheck s, e => e.check == s
  | .exMsgSub s, e => !s.isEmpty && subInStr s e.msg
  | _, _ => false

lemma matchesAdd_eq (a : PolAdd) (e : Entry) :
    matchesAdd a e = (preMatches a e || postMatches a e) := by
  cases a <;> simp [matchesAdd, preMatches, postMatches]

lemma preMatches_key (a : PolAdd) :
    ∀ x y : Entry, entryKey x = entryKey y → preMatches a x = preMatches a y := by
  intro x y h
  have h1 : x.file = y.file := congrArg (fun k : Key => k.1) h
  have h2 : x.check = y.check := congrArg (fun k : Key => k.2.2.2.1) h
  cases a <;> simp [preMatches, h1, h2]

lemma keepGuard_applyAdd (a : PolAdd) (pol : Policy) (e : Entry) :
    keepGuard (applyAdd a pol) e = (keepGuard pol e && !preMatches a e) := by
  cases a with
  | exFile s =>
    simp only [applyAdd, keepGuard, is_excluded_path, preMatches, List.contains_cons]
    cases h1 : e.file == s <;>
      cases h2 : pol.excludedFiles.contains e.file <;>
      cases h3 : pol.excludedPathPrefs.any (fun p => strStartsWith e.file p) <;>
      simp [h1, h2, h3]
  | exPref s =>
    simp only [applyAdd, keepGuard, is_excluded_path, preMatches, List.any_cons]
    cases h1 : strStartsWith e.file s <;>
      cases h2 : pol.excludedFiles.contains e.file <;>
      cases h3 : pol.excludedPathPrefs.any (fun p => strStartsWith e.file p) <;>
      simp [h1, h2, h3]
  | exCheck s => simp [applyAdd, keepGuard, is_excluded_path, preMatches]
  | exMsgSub s => simp [applyAdd, keepGuard, is_excluded_path, preMatches]
  | exHeaderSev s => simp [applyAdd, keepGuard, is_excluded_path, preMatches]
  | exHeaderCheck s =>
    simp only [applyAdd, keepGuard, is_excluded_path, preMatches, List.contains_cons]
    cases hX : pol.excludedFiles.contains e.file <;>
      cases hP : pol.excludedPathPrefs.any (fun p => strStartsWith e.file p) <;>
      cases hH : is_header e.file <;>
      cases hcs : e.check == s <;>
      cases hK : pol.suppressChecksInHeaders.contains e.check <;>
      cases hW : e.sev == Sev.warning <;>
      simp [hX, hP, hH, hcs, hK, hW]

lemma keepOne_applyAdd (a : PolAdd) (pol : Policy) (fs : Fs) (root : String) (line : String) :
    keepOne (applyAdd a pol) fs root line =
      match keepOne pol fs root line with
      | none => none
      | some e => if preMatches a e then none else some e := by
  unfold keepOne
  cases h : parsedEntry fs root line with
  | none => rfl
  | some e =>
    dsimp only
    rw [keepGuard_applyAdd]
    by_cases hg : keepGuard pol e = true
    · cases hm : preMatches a e <;> simp [hg, hm]
    · simp only [Bool.not_eq_true] at hg
      simp [hg]

lemma keepList_applyAdd (a : PolAdd) (pol : Policy) (fs : Fs) (root : String)
    (lines : List String) :
    keepList (applyAdd a pol) fs root lines =
      (keepList pol fs root lines).filter (fun e => !preMatches a e) := by
  induction lines with
  | nil => simp [keepList]
  | cons l t ih =>
    rw [keepList_cons, keepList_cons, keepOne_applyAdd]
    cases h : keepOne pol fs root l with
    | none => exact ih
    | some e =>
      dsimp only
      cases hm : preMatches a e <;> simp [hm, ih, List.filter_cons]

lemma parse_logs_applyAdd (a : PolAdd) (pol : Policy) (fs : Fs) (root : String)
    (logs : List (List String)) :
    parse_logs (applyAdd a pol) fs root logs =
      (parse_logs pol fs root logs).filter (fun e => !preMatches a e) := by
  rw [parse_logs_eq, parse_logs_eq, keepList_applyAdd]
  exact dedupFrom_filter (fun e => !preMatches a e)
    (fun x y h => by dsimp only; rw [preMatches_key a x y h]) _ [] [] (fun _ _ => Iff.rfl)

lemma suppressedEntry_applyAdd (a : PolAdd) (pol : Policy) (e : Entry) :
    suppressedEntry (applyAdd a pol) e = (suppressedEntry pol e || postMatches a e) := by
  cases a with
  | exCheck s =>
    simp only [applyAdd, suppressedEntry, postMatches, List.contains_cons]
    cases h1 : e.check == s <;>
      cases h2 : pol.suppressChecks.contains e.check <;>
      cases h3 : pol.suppressMsgSubstr.any (fun sub => !sub.isEmpty && subInStr sub e.msg) <;>
      simp [h1, h2, h3]
  | exMsgSub s =>
    simp only [applyAdd, suppressedEntry, postMatches, List.any_cons]
    cases h1 : (!s.isEmpty && subInStr s e.msg) <;>
      cases h2 : pol.suppressChecks.contains e.check <;>
      cases h3 : pol.suppressMsgSubstr.any (fun sub => !sub.isEmpty && subInStr sub e.msg) <;>
      simp [h1, h2, h3]
  | exFile s => simp [applyAdd, suppressedEntry, postMatches]
  | exPref s => simp [applyAdd, suppressedEntry, postMatches]
  | exHeaderCheck s => simp [applyAdd, suppressedEntry, postMatches]
  | exHeaderSev s => simp [applyAdd, suppressedEntry, postMatches]

lemma keptItems_applyAdd (a : PolAdd) (pol : Policy) (fs : Fs) (root : String)
    (logs : List (List String)) :
    keptItems (applyAdd a pol) fs root logs =
      (keptItems pol fs root logs).filter (fun e => !matchesAdd a e) := by
  unfold keptItems
  rw [parse_logs_applyAdd]
  simp only [List.filter_filter]
  refine List.filter_congr ?_
  intro e _
  rw [suppressedEntry_applyAdd, matchesAdd_eq]
  cases h1 : suppressedEntry pol e <;>
    cases h2 : preMatches a e <;>
    cases h3 : postMatches a e <;>
    cases h4 : e.sev != Sev.note <;>
    simp [h1, h2, h3, h4]

/-- Nested lexicographic type of the display sort key. -/
abbrev SortKey := Lex (Nat × Lex (String × Lex (Nat × Lex (Nat × String))))

/-- The Python sort key of an entry, as a lexicographically ordered tuple
(with the two severity booleans encoded by `sevRankE`). -/
def entryKeyL (e : Entry) : SortKey :=
  toLex (sevRankE e.sev, toLex (e.file, toLex (e.line, toLex (e.col, e.check))))

/-- Severity rank of the spec's display ordering: Error < Warning < Note. -/
def sevRank : Sev → Nat
  | .error => 0
  | .warning => 1
  | .note => 2

/-- The spec's display-order key: lexicographic tuple
(severity rank, path, line, column, check). -/
def claimKeyL (e : Entry) : SortKey :=
  toLex (sevRank e.sev, toLex (e.file, toLex (e.line, toLex (e.col, e.check))))

/-- Tuple order of the spec's display ordering. -/
def claimTupLe (x y : Entry) : Prop := claimKeyL x ≤ claimKeyL y

lemma step_iff {α : Type} [LinearOrder α] (a c : α) (d1 : Decidable (a < c))
    (d2 : Decidable (c < a)) (rest : Bool) (P : Prop) (h : rest = true ↔ P) :
    ((@ite _ (a < c) d1 true (@ite _ (c < a) d2 false rest)) = true) ↔ (a < c ∨ a = c ∧ P) := by
  rcases lt_trichotomy a c with h1 | h1 | h1
  · simp [h1]
  · simp [h1, lt_irrefl, h]
  · simp [lt_asymm h1, h1, ne_of_gt h1]

lemma last_step_iff {α : Type} [LinearOrder α] (a c : α) (d1 : Decidable (a < c))
    (d2 : Decidable (c < a)) :
    ((@ite _ (a < c) d1 true (@ite _ (c < a) d2 false true)) = true) ↔ a ≤ c := by
  rcases lt_trichotomy a c with h1 | h1 | h1
  · simp [h1, le_of_lt h1]
  · simp [h1, lt_irrefl]
  · simp [lt_asymm h1, h1, not_le.mpr h1]

lemma lex_step_iff {α β : Type} [LinearOrder α] [Preorder β]
    (a c : α) (b d : β) (d1 : Decidable (a < c)) (d2 : Decidable (c < a))
    (rest : Bool) (h : rest = true ↔ b ≤ d) :
    ((@ite _ (a < c) d1 true (@ite _ (c < a) d2 false rest)) = true) ↔
      toLex (a, b) ≤ toLex (c, d) := by
  rw [Prod.Lex.le_iff]
  exact (step_iff a c d1 d2 rest _ h).trans (by simp)

lemma ltL_iff : ∀ (as bs : List Char), ltL as bs = true ↔ List.Lex (· < ·) as bs := by
  intro as
  induction as with
  | nil =>
    intro bs
    cases bs with
    | nil =>
      simp only [ltL, Bool.false_eq_true, false_iff]
      exact List.Lex.not_nil_right _ _
    | cons b bs =>
      simp only [ltL, true_iff]
      exact List.Lex.nil
  | cons a as ih =>
    intro bs
    cases bs with
    | nil =>
      simp only [ltL, Bool.false_eq_true, false_iff]
      exact List.Lex.not_nil_right _ _
    | cons b bs =>
      simp only [ltL]
      rcases lt_trichotomy a b with h1 | h1 | h1
      · rw [if_pos h1]
        simp only [true_iff]
        exact List.Lex.rel h1
      · subst h1
        rw [if_neg (lt_irrefl a), if_neg (lt_irrefl a), ih bs]
        exact List.Lex.cons_iff.symm
      · rw [if_neg (lt_asymm h1), if_pos h1]
        simp only [Bool.false_eq_true, false_iff]
        intro hcon
        cases hcon with
        | cons h => exact absurd h1 (lt_irrefl _)
        | rel h => exact lt_asymm h1 h

lemma strLt_iff_lt (x y : String) : strLt x y = true ↔ x < y := by
  rw [String.lt_iff_toList_lt]
  exact ltL_iff x.toList y.toList

lemma str_step_iff {β : Type} [Preorder β] (a c : String) (b d : β) (rest : Bool)
    (h : rest = true ↔ b ≤ d) :
    ((if strLt a c then true else if strLt c a then false else rest) = true) ↔
      toLex (a, b) ≤ toLex (c, d) := by
  rw [Prod.Lex.le_iff]
  rcases lt_trichotomy a c with h1 | h1 | h1
  · have ht : strLt a c = true := (strLt_iff_lt a c).mpr h1
    simp [ht, h1]
  · subst h1
    have hf : ¬ strLt a a = true := fun hh => lt_irrefl a ((strLt_iff_lt a a).mp hh)
    simp [hf, h, lt_irrefl]
  · have ht : strLt c a = true := (strLt_iff_lt c a).mpr h1
    have hf : ¬ strLt a c = true := fun hh => lt_asymm h1 ((strLt_iff_lt a c).mp hh)
    simp [ht, hf, lt_asymm h1, ne_of_gt h1]

lemma str_last_iff (a c : String) :
    ((if strLt a c then true else if strLt c a then false else true) = true) ↔ a ≤ c := by
  rcases lt_trichotomy a c with h1 | h1 | h1
  · simp [(strLt_iff_lt a c).mpr h1, le_of_lt h1]
  · subst h1
    have hf : ¬ strLt a a = true := fun hh => lt_irrefl a ((strLt_iff_lt a a).mp hh)
    simp [hf]
  · have ht : strLt c a = true := (strLt_iff_lt c a).mpr h1
    have hf : ¬ strLt a c = true := fun hh => lt_asymm h1 ((strLt_iff_lt a c).mp hh)
    simp [ht, hf, not_le.mpr h1]

lemma pyLe_iff (x y : Entry) : pyLe x y = true ↔ entryKeyL x ≤ entryKeyL y := by
  unfold pyLe entryKeyL
  exact lex_step_iff _ _ _ _ _ _ _ (str_step_iff _ _ _ _ _ (lex_step_iff _ _ _ _ _ _ _
    (lex_step_iff _ _ _ _ _ _ _ (str_last_iff _ _))))

lemma sevRankE_eq (s : Sev) : sevRankE s = sevRank s + 1 := by
  cases s <;> rfl

lemma entryKeyL_le_iff (x y : Entry) : entryKeyL x ≤ entryKeyL y ↔ claimTupLe x y := by
  unfold entryKeyL claimTupLe claimKeyL
  simp only [Prod.Lex.le_iff, sevRankE_eq, add_lt_add_iff_right, add_left_inj]

lemma pyLe_trans : ∀ a b c : Entry, pyLe a b = true → pyLe b c = true → pyLe a c = true := by
  intro a b c hab hbc
  rw [pyLe_iff] at hab hbc ⊢
  exact le_trans hab hbc

lemma pyLe_total : ∀ a b : Entry, (pyLe a b || pyLe b a) = true := by
  intro a b
  rcases le_total (entryKeyL a) (entryKeyL b) with h | h
  · simp [pyLe_iff, h]
  · simp [pyLe_iff, h]

lemma finalItems_pairwise (pol : Policy) (fs : Fs) (root : String) (logs : List (List String)) :
    (finalItems pol fs root logs).Pairwise claimTupLe := by
  have h := List.sorted_mergeSort pyLe_trans pyLe_total (keptItems pol fs root logs)
  exact h.imp (fun hab => (entryKeyL_le_iff _ _).mp ((pyLe_iff _ _).mp hab))

lemma normStep_clean (k : Nat) (acc : List String) (comp : String)
    (h : ∀ c ∈ acc, c ≠ "" ∧ c ≠ ".") :
    ∀ c ∈ normStep k acc comp, c ≠ "" ∧ c ≠ "." := by
  intro c hc
  unfold normStep at hc
  split at hc
  · exact h c hc
  · rename_i h1
    split at hc
    · rcases List.mem_append.mp hc with h2 | h2
      · exact h c h2
      · rw [List.mem_singleton] at h2
        subst h2
        constructor <;> intro heq <;> subst heq <;> simp at h1
    · split at hc
      · exact h c ((List.dropLast_sublist acc).subset hc)
      · exact h c hc

lemma foldl_normStep_clean (k : Nat) :
    ∀ (comps acc : List String), (∀ c ∈ acc, c ≠ "" ∧ c ≠ ".") →
      ∀ c ∈ comps.foldl (normStep k) acc, c ≠ "" ∧ c ≠ "." := by
  intro comps
  induction comps with
  | nil => intro acc h; simpa using h
  | cons a t ih =>
    intro acc h
    rw [List.foldl_cons]
    exact ih _ (normStep_clean k acc a h)

lemma normSegments_clean (p : String) : ∀ c ∈ normSegments p, c ≠ "" ∧ c ≠ "." :=
  foldl_normStep_clean (initSlashCount p) (splitStr '/' p) [] (by simp)

/-- The resolution oracle under which every `Path(p).resolve()` call raises. -/
def fsNone : Fs := fun _ => none

/-- A policy with every exclusion set empty. -/
def emptyPolicy : Policy := ⟨[], [], [], [], [], []⟩

/-- Hard-coded `SUPPRESS_CHECKS` (empty `CT_SUPPRESS_CHECKS` override). -/
def SUPPRESS_CHECKS : List String :=
  ["IgnoreClassesWithAllMemberVariablesBeingPublic",
   "openmp-use-default-none",
   "clang-diagnostic-error",
   "clang-analyzer-optin.cplusplus.VirtualCall"]

/-- Hard-coded `SUPPRESS_MSG_SUBSTR` (empty `CT_SUPPRESS_MSG_SUBSTR` override). -/
def SUPPRESS_MSG_SUBSTR : List String :=
  ["IgnoreClassesWithAllMemberVariablesBeingPublic",
   "use of undeclared identifier",
   "file not found",
   "unknown type name",
   "no matching function for call to",
   "boolean expression can be simplified by DeMorgan\x27s theorem"]

/-- Hard-coded `SUPPRESS_CHECKS_IN_HEADERS`. -/
def SUPPRESS_CHECKS_IN_HEADERS : List String :=
  ["readability-magic-numbers",
   "cppcoreguidelines-avoid-magic-numbers",
   "modernize-use-trailing-return-type",
   "cppcoreguidelines-macro-usage",
   "cppcoreguidelines-macro-to-enum",
   "modernize-macro-to-enum",
   "cert-oop54-cpp",
   "openmp-use-default-none",
   "readability-identifier-naming"]

/-- The script's policy with empty `EXCLUDE_DIRS`, `EXCLUDE_FILES` and
override environment variables: the hard-coded configuration sets, including
`SUPPRESS_SEVERITY_IN_HEADERS = {"note"}`. -/
def defaultPolicy : Policy :=
  { excludedFiles := [],
    excludedPathPrefs := [],
    suppressChecks := SUPPRESS_CHECKS,
    suppressMsgSubstr := SUPPRESS_MSG_SUBSTR,
    suppressChecksInHeaders := SUPPRESS_CHECKS_IN_HEADERS,
    suppressSevInHeaders := ["note"] }

/-- Modelled from the spec (§4.3 order, as asserted by the claim): the full
per-record suppression decision — Note drop first, then path exclusion,
header-scoped check suppression, global check and message suppression. -/
def specDropped (pol : Policy) (e : Entry) : Bool :=
  e.sev == Sev.note ||
    is_excluded_path pol e.file ||
    (is_header e.file && pol.suppressChecksInHeaders.contains e.check) ||
    suppressedEntry pol e

/-- Modelled from the spec: apply the whole suppression decision to every
parsed record and only then deduplicate (the pipeline order the claim
asserts). -/
def suppressThenDedup (pol : Policy) (fs : Fs) (root : String)
    (logs : List (List String)) : List Entry :=
  dedup ((rawEntries fs root logs).filter (fun e => !specDropped pol e))

lemma keepGuard_of_mem_keepList {pol : Policy} {fs : Fs} {root : String}
    {lines : List String} {e : Entry} (h : e ∈ keepList pol fs root lines) :
    keepGuard pol e = true := by
  obtain ⟨line, _, hline⟩ := List.mem_filterMap.mp h
  unfold keepOne at hline
  cases hp : parsedEntry fs root line with
  | none => rw [hp] at hline; exact absurd hline (by simp)
  | some e' =>
    rw [hp] at hline
    dsimp only at hline
    by_cases hg : keepGuard pol e' = true
    · rw [if_pos hg] at hline
      cases hline
      exact hg
    · rw [if_neg hg] at hline
      exact absurd hline (by simp)

lemma keepList_sublist (pol : Policy) (fs : Fs) (root : String) (lines : List String) :
    (keepList pol fs root lines).Sublist (lines.filterMap (parsedEntry fs root)) := by
  induction lines with
  | nil => simp [keepList]
  | cons l t ih =>
    rw [keepList_cons, List.filterMap_cons]
    cases hp : parsedEntry fs root l with
    | none =>
      have hk : keepOne pol fs root l = none := by unfold keepOne; rw [hp]
      rw [hk]
      dsimp only
      exact ih
    | some e' =>
      unfold keepOne
      rw [hp]
      dsimp only
      by_cases hg : keepGuard pol e' = true
      · rw [if_pos hg]
        exact ih.cons₂ e'
      · rw [if_neg hg]
        exact ih.cons e'

lemma mem_keptItems_iff {pol : Policy} {fs : Fs} {root : String}
    {logs : List (List String)} {e : Entry} :
    e ∈ keptItems pol fs root logs ↔
      e ∈ parse_logs pol fs root logs ∧ (e.sev != Sev.note) = true ∧
        (!suppressedEntry pol e) = true := by
  unfold keptItems
  rw [List.mem_filter, List.mem_filter]
  tauto

lemma mem_finalItems_iff {pol : Policy} {fs : Fs} {root : String}
    {logs : List (List String)} {e : Entry} :
    e ∈ finalItems pol fs root logs ↔ e ∈ keptItems pol fs root logs := by
  unfold finalItems
  exact List.mem_mergeSort

/-- C1 (counterexample): the final record set does not always equal
"apply all suppression (with the Note drop first) and only then
deduplicate".  On a log whose Note line precedes an identical-key warning
line, the code deduplicates before the Note drop: the Note occupies the
`seen` key, the warning is discarded as a duplicate, and the later Note
filter then removes the Note — so the code keeps nothing, while
suppression-then-deduplication keeps the warning. -/
theorem C1_counterexample :
    keptItems emptyPolicy fsNone "" [["x.cpp:1:1: note: m", "x.cpp:1:1: warning: m"]] ≠
      suppressThenDedup emptyPolicy fsNone "" [["x.cpp:1:1: note: m", "x.cpp:1:1: warning: m"]] := by
  decide

/-- C1 (amended): the pipeline's final record list equals path and
header suppression applied line by line, then first-occurrence
deduplication, then the Note drop, then check/message suppression, then the
display sort — i.e. deduplication happens before the Note drop and the
check/message rules, so records dropped only by those later rules still
influence deduplication. -/
theorem C1_amended (pol : Policy) (fs : Fs) (root : String) (logs : List (List String)) :
    finalItems pol fs root logs =
      ((((dedup (keepList pol fs root logs.flatten)).filter
            (fun it => it.sev != Sev.note)).filter
          (fun it => !suppressedEntry pol it)).mergeSort pyLe) := by
  unfold finalItems keptItems
  rw [parse_logs_eq]

/-- C2 (counterexample): two parsed lines with equal
`(path, line, column, check, message)` tuples do not always leave exactly
one such record in the final set: two identical Note lines parse to two
equal-tuple records, yet the final set is empty. -/
theorem C2_counterexample :
    rawEntries fsNone "" [["x.cpp:1:1: note: m", "x.cpp:1:1: note: m"]] =
      [⟨"x.cpp", 1, 1, Sev.note, "m", ""⟩, ⟨"x.cpp", 1, 1, Sev.note, "m", ""⟩] ∧
    finalItems emptyPolicy fsNone "" [["x.cpp:1:1: note: m", "x.cpp:1:1: note: m"]] = [] := by
  constructor
  · decide
  · rw [finalItems, show keptItems emptyPolicy fsNone ""
        [["x.cpp:1:1: note: m", "x.cpp:1:1: note: m"]] = [] from by decide]
    exact List.mergeSort_nil

/-- C2 (amended): at most one record per key tuple survives — the dedup
stage keeps, for every key, exactly the first record (in input order across
all log files) that passed the pre-dedup filters; the surviving records
keep their relative input order prior to the display sort (they form a
subsequence of the filtered input stream), and the final displayed list
still has pairwise-distinct keys. -/
theorem C2_amended (pol : Policy) (fs : Fs) (root : String) (logs : List (List String)) :
    (parse_logs pol fs root logs).Sublist (keepList pol fs root logs.flatten) ∧
    ((parse_logs pol fs root logs).map entryKey).Nodup ∧
    (∀ k : Key, (parse_logs pol fs root logs).find? (fun e => entryKey e == k) =
        (keepList pol fs root logs.flatten).find? (fun e => entryKey e == k)) ∧
    ((finalItems pol fs root logs).map entryKey).Nodup := by
  refine ⟨?_, ?_, ?_, ?_⟩
  · rw [parse_logs_eq]
    exact dedupFrom_sublist [] _
  · rw [parse_logs_eq]
    exact (nodup_keys_dedupFrom [] _).1
  · intro k
    rw [parse_logs_eq]
    exact find?_dedupFrom k _ [] (by simp)
  · have h1 : (keptItems pol fs root logs).Sublist (parse_logs pol fs root logs) := by
      unfold keptItems
      exact (List.filter_sublist _).trans (List.filter_sublist _)
    have hn : ((parse_logs pol fs root logs).map entryKey).Nodup := by
      rw [parse_logs_eq]
      exact (nodup_keys_dedupFrom [] _).1
    have h2 : ((keptItems pol fs root logs).map entryKey).Nodup :=
      List.Nodup.sublist (h1.map entryKey) hn
    have h3 : (finalItems pol fs root logs).Perm (keptItems pol fs root logs) :=
      List.mergeSort_perm _ _
    exact ((h3.map entryKey).nodup_iff).mpr h2

/-- C3: adding one entry to any single exclusion set (excluded paths,
excluded path prefixes, excluded checks, excluded message substrings,
header-only excluded checks, header-only excluded severities) never
increases the number of kept records, and every record dropped in the new
run but kept in the old run matches the added entry. -/
theorem C3_suppression_monotonicity (a : PolAdd) (pol : Policy) (fs : Fs) (root : String)
    (logs : List (List String)) :
    (finalItems (applyAdd a pol) fs root logs).length ≤ (finalItems pol fs root logs).length ∧
      ∀ e : Entry, e ∈ finalItems pol fs root logs →
        e ∉ finalItems (applyAdd a pol) fs root logs → matchesAdd a e = true := by
  constructor
  · unfold finalItems
    rw [List.length_mergeSort, List.length_mergeSort, keptItems_applyAdd]
    exact List.length_filter_le _ _
  · intro e he hne
    rw [mem_finalItems_iff] at he
    by_contra hm
    apply hne
    rw [mem_finalItems_iff, keptItems_applyAdd]
    refine List.mem_filter.mpr ⟨he, ?_⟩
    simp only [Bool.not_eq_true] at hm
    simp [hm]

/-- C3 witness: a concrete record kept under the empty policy and dropped
after adding its check to `SUPPRESS_CHECKS` indeed matches the added
entry. -/
theorem C3_witness :
    matchesAdd (PolAdd.exCheck "c") ⟨"a.cpp", 1, 1, Sev.warning, "m", "c"⟩ = true := by
  refine (C3_suppression_monotonicity (PolAdd.exCheck "c") emptyPolicy fsNone ""
    [["a.cpp:1:1: warning: m [c]"]]).2 ⟨"a.cpp", 1, 1, Sev.warning, "m", "c"⟩ ?_ ?_
  · simp only [mem_finalItems_iff]
    decide
  · simp only [mem_finalItems_iff]
    decide

/-- C4: for every input and policy, the final kept record set contains no
record with severity Note. -/
theorem C4_note_exclusion (pol : Policy) (fs : Fs) (root : String) (logs : List (List String)) :
    ∀ e ∈ finalItems pol fs root logs, e.sev ≠ Sev.note := by
  intro e he
  rw [mem_finalItems_iff, mem_keptItems_iff] at he
  simpa using he.2.1

/-- C4 witness at a concrete record of a concrete run. -/
theorem C4_witness : (⟨"a.cpp", 1, 1, Sev.warning, "m", ""⟩ : Entry).sev ≠ Sev.note :=
  C4_note_exclusion emptyPolicy fsNone "" [["a.cpp:1:1: warning: m"]] _
    (by simp only [mem_finalItems_iff]; decide)

/-- C5 (counterexample): a non-header record whose check is in
`SUPPRESS_CHECKS_IN_HEADERS` and which matches no global suppression rule is
nonetheless dropped from the final set when an earlier record (here a Note)
shares its dedup key. -/
theorem C5_counterexample :
    is_header "x.cpp" = false ∧
    SUPPRESS_CHECKS_IN_HEADERS.contains "readability-magic-numbers" = true ∧
    is_excluded_path defaultPolicy "x.cpp" = false ∧
    suppressedEntry defaultPolicy
      ⟨"x.cpp", 1, 1, Sev.warning, "m", "readability-magic-numbers"⟩ = false ∧
    (⟨"x.cpp", 1, 1, Sev.warning, "m", "readability-magic-numbers"⟩ : Entry) ∈
      rawEntries fsNone ""
        [["x.cpp:1:1: note: m [readability-magic-numbers]",
          "x.cpp:1:1: warning: m [readability-magic-numbers]"]] ∧
    (⟨"x.cpp", 1, 1, Sev.warning, "m", "readability-magic-numbers"⟩ : Entry) ∉
      finalItems defaultPolicy fsNone ""
        [["x.cpp:1:1: note: m [readability-magic-numbers]",
          "x.cpp:1:1: warning: m [readability-magic-numbers]"]] := by
  refine ⟨by decide, by decide, by decide, by decide, by decide, ?_⟩
  simp only [mem_finalItems_iff]
  decide

/-- C5 (amended): every record in the final set avoids the header-scoped
suppression (no kept record has a header path together with a check in
`header_only_excluded_checks`); and a parsed non-header record matching no
global suppression rule (path exclusion, Note drop, check or message
suppression) is kept, provided no other input record shares its dedup key
tuple. -/
theorem C5_amended (pol : Policy) (fs : Fs) (root : String) (logs : List (List String)) :
    (∀ e ∈ finalItems pol fs root logs,
        ¬(is_header e.file = true ∧ e.check ∈ pol.suppressChecksInHeaders)) ∧
    (∀ e ∈ rawEntries fs root logs,
        is_header e.file = false →
        is_excluded_path pol e.file = false →
        e.sev ≠ Sev.note →
        suppressedEntry pol e = false →
        ((rawEntries fs root logs).map entryKey).count (entryKey e) = 1 →
        e ∈ finalItems pol fs root logs) := by
  constructor
  · intro e he
    rw [mem_finalItems_iff, mem_keptItems_iff, parse_logs_eq] at he
    have hmem := (dedupFrom_sublist [] _).subset he.1
    have hg := keepGuard_of_mem_keepList hmem
    have hB : (is_header e.file && pol.suppressChecksInHeaders.contains e.check) = false := by
      by_contra hB2
      simp only [Bool.not_eq_false] at hB2
      unfold keepGuard at hg
      rw [hB2] at hg
      simp at hg
    rintro ⟨hh, hc⟩
    rw [hh] at hB
    simp at hB
    exact hB hc
  · intro e he hh hx hn hs hcount
    obtain ⟨line, hline, hpe⟩ := List.mem_filterMap.mp he
    have hg : keepGuard pol e = true := by
      unfold keepGuard
      simp [hx, hh]
    have hkeep : e ∈ keepList pol fs root logs.flatten := by
      refine List.mem_filterMap.mpr ⟨line, hline, ?_⟩
      unfold keepOne
      rw [hpe]
      dsimp only
      rw [if_pos hg]
    have hcount_keep :
        ((keepList pol fs root logs.flatten).map entryKey).count (entryKey e) = 1 := by
      have hle := ((keepList_sublist pol fs root logs.flatten).map entryKey).count_le (entryKey e)
      have hge : 1 ≤ ((keepList pol fs root logs.flatten).map entryKey).count (entryKey e) :=
        List.count_pos_iff.mpr (List.mem_map_of_mem entryKey hkeep)
      unfold rawEntries at hcount
      omega
    have hded : e ∈ dedup (keepList pol fs root logs.flatten) :=
      mem_dedupFrom_of_count_one e _ [] (by simp) hkeep hcount_keep
    rw [mem_finalItems_iff, mem_keptItems_iff, parse_logs_eq]
    refine ⟨hded, ?_, ?_⟩
    · simpa using hn
    · simp [hs]

/-- C5 witness: a concrete non-header, unsuppressed, unique-key record is
kept. -/
theorem C5_witness :
    (⟨"src/a.cpp", 3, 4, Sev.warning, "boom", "readability-magic-numbers"⟩ : Entry) ∈
      finalItems defaultPolicy fsNone ""
        [["src/a.cpp:3:4: warning: boom [readability-magic-numbers]"]] :=
  (C5_amended defaultPolicy fsNone ""
      [["src/a.cpp:3:4: warning: boom [readability-magic-numbers]"]]).2
    ⟨"src/a.cpp", 3, 4, Sev.warning, "boom", "readability-magic-numbers"⟩
    (by decide) (by decide) (by decide) (by decide) (by decide) (by decide)

/-- C6: in the final emitted record list, every adjacent pair is
non-decreasing in the lexicographic tuple
(severity rank with Error < Warning < Note, path, line, column, check). -/
theorem C6_display_ordering (pol : Policy) (fs : Fs) (root : String) (logs : List (List String)) :
    (finalItems pol fs root logs).Chain' claimTupLe :=
  (finalItems_pairwise pol fs root logs).chain'

/-- C7 (counterexample): the parser does not guarantee positive (1-based)
line and column values — the digit runs may be `0`, which `ROW_RE` accepts. -/
theorem C7_counterexample :
    ¬ ∀ (raw : String) (d : RawDiag), parseLine raw = some d → 1 ≤ d.line ∧ 1 ≤ d.col := by
  intro h
  have h0 := h "a.c:0:0: warning: m" ⟨"a.c", 0, 0, Sev.warning, "m", ""⟩ (by decide)
  exact absurd h0.1 (by decide)

/-- C7 (amended): parsed line and column values are non-negative integers
(decimal digit runs), and the value 0 is attainable, so positivity fails. -/
theorem C7_amended :
    (∀ (raw : String) (d : RawDiag), parseLine raw = some d → 0 ≤ d.line ∧ 0 ≤ d.col) ∧
    (∃ (raw : String) (d : RawDiag), parseLine raw = some d ∧ d.line = 0 ∧ d.col = 0) := by
  constructor
  · intro raw d _
    exact ⟨Nat.zero_le _, Nat.zero_le _⟩
  · exact ⟨"b.c:0:0: warning: w", ⟨"b.c", 0, 0, Sev.warning, "w", ""⟩, by decide, rfl, rfl⟩

/-- C7 witness at a concrete parsed line. -/
theorem C7_witness :
    0 ≤ (⟨"a.c", 5, 7, Sev.error, "q", ""⟩ : RawDiag).line ∧
      0 ≤ (⟨"a.c", 5, 7, Sev.error, "q", ""⟩ : RawDiag).col :=
  C7_amended.1 "a.c:5:7: error: q" ⟨"a.c", 5, 7, Sev.error, "q", ""⟩ (by decide)

/-- C8: path normalization is total (the embedding of the
`try`/`except`-wrapped body is a total function, so it never raises); when
resolution raises or the resolved path is not under the repository root it
returns `os.path.normpath` of the raw path — a purely lexical result whose
computed components contain no empty and no `.` segments — and otherwise it
returns the resolved path made relative to the root. -/
theorem C8_normalize_path (fs : Fs) (root p : String) :
    (fs p = none → normalize_path fs root p = normpath p) ∧
    (∀ q : String, fs p = some q → relativeTo q root = none →
        normalize_path fs root p = normpath p) ∧
    (∀ q r : String, fs p = some q → relativeTo q root = some r →
        normalize_path fs root p = r) ∧
    (∀ c ∈ normSegments p, c ≠ "" ∧ c ≠ ".") := by
  refine ⟨?_, ?_, ?_, normSegments_clean p⟩
  · intro h
    unfold normalize_path
    rw [h]
  · intro q hq hr
    unfold normalize_path
    rw [hq]
    dsimp only
    rw [hr]
  · intro q r hq hr
    unfold normalize_path
    rw [hq]
    dsimp only
    rw [hr]

/-- C8 witness: a concrete unresolvable path falls back to its lexical
normalization. -/
theorem C8_witness :
    normalize_path fsNone "/repo" "a/./b//../c" = normpath "a/./b//../c" ∧
      normpath "a/./b//../c" = "a/c" :=
  ⟨(C8_normalize_path fsNone "/repo" "a/./b//../c").1 rfl, by decide⟩

/-- C9: exactly the three policy names `none`, `errors`, `warnings` are
recognized; an unrecognized name is rejected with a result independent of
the log inputs (before any log is processed); on a recognized policy the
run succeeds and exits non-zero exactly when the active policy's condition
holds on the post-filter counts. -/
theorem C9_fail_policy (pol : Policy) (fs : Fs) (root : String) (failArg : String)
    (logs : List (List String)) :
    ((parseFailOn failArg).isSome = true ↔
      (failArg = "none" ∨ failArg = "errors" ∨ failArg = "warnings")) ∧
    (parseFailOn failArg = none →
      runMain pol fs root failArg logs = Except.error "invalid choice for --fail-on" ∧
        ∀ logs2 : List (List String),
          runMain pol fs root failArg logs = runMain pol fs root failArg logs2) ∧
    (∀ fo : FailOn, parseFailOn failArg = some fo →
      ∃ out : Output, runMain pol fs root failArg logs = Except.ok out ∧
        (out.exitCode ≠ 0 ↔
          (fo = FailOn.errors ∧ 0 < out.counts.errors) ∨
            (fo = FailOn.warnings ∧ (0 < out.counts.errors ∨ 0 < out.counts.warnings)))) := by
  refine ⟨?_, ?_, ?_⟩
  · by_cases h1 : failArg = "none"
    · simp [parseFailOn, h1]
    · by_cases h2 : failArg = "errors"
      · simp [parseFailOn, h1, h2]
      · by_cases h3 : failArg = "warnings" <;> simp [parseFailOn, h1, h2, h3]
  · intro h
    constructor
    · unfold runMain
      rw [h]
    · intro logs2
      unfold runMain
      rw [h]
  · intro fo hfo
    refine ⟨{ items := finalItems pol fs root logs, counts := countsOf pol fs root logs,
              exitCode := exitCodeOf fo (countsOf pol fs root logs) }, ?_, ?_⟩
    · unfold runMain
      rw [hfo]
    · unfold exitCodeOf
      cases fo with
      | never => simp
      | errors =>
        by_cases he : 0 < (countsOf pol fs root logs).errors <;> simp [he]
      | warnings =>
        by_cases he : 0 < (countsOf pol fs root logs).errors <;>
          by_cases hw : 0 < (countsOf pol fs root logs).warnings <;> simp [he, hw]

/-- C9 witness: a concrete unrecognized policy name is rejected. -/
theorem C9_witness :
    runMain emptyPolicy fsNone "" "bogus" [["a.c:1:1: error: m"]] =
      Except.error "invalid choice for --fail-on" :=
  ((C9_fail_policy emptyPolicy fsNone "" "bogus" [["a.c:1:1: error: m"]]).2.1 (by decide)).1

/-- C10: in the emitted summary, `total` equals `errors + warnings`, and
every record in the final kept set has severity Error or Warning. -/
theorem C10_counts (pol : Policy) (fs : Fs) (root : String) (logs : List (List String)) :
    (countsOf pol fs root logs).total =
      (countsOf pol fs root logs).errors + (countsOf pol fs root logs).warnings ∧
    ∀ e ∈ finalItems pol fs root logs, e.sev = Sev.error ∨ e.sev = Sev.warning := by
  have hmem : ∀ e ∈ finalItems pol fs root logs, e.sev = Sev.error ∨ e.sev = Sev.warning := by
    intro e he
    rw [mem_finalItems_iff, mem_keptItems_iff] at he
    have hn := he.2.1
    cases hsev : e.sev with
    | error => exact Or.inl rfl
    | warning => exact Or.inr rfl
    | note => rw [hsev] at hn; simp at hn
  refine ⟨?_, hmem⟩
  unfold countsOf
  dsimp only
  rw [List.length_eq_countP_add_countP (fun it => it.sev == Sev.error)]
  congr 1
  refine List.countP_congr ?_
  intro e he
  rcases hmem e he with h | h <;> simp [h]

/-- C10 witness at a concrete record of a concrete run. -/
theorem C10_witness :
    (⟨"b.cpp", 2, 3, Sev.error, "w", ""⟩ : Entry).sev = Sev.error ∨
      (⟨"b.cpp", 2, 3, Sev.error, "w", ""⟩ : Entry).sev = Sev.warning :=
  (C10_counts emptyPolicy fsNone "" [["b.cpp:2:3: error: w"]]).2 _
    (by simp only [mem_finalItems_iff]; decide)

end ClangTidy
